import Mathlib

/-!
Verification development for the `fractalnetworksco/storage` snapshot
storage service.

The Rust sources are shallowly embedded: byte strings become `List Nat`,
SQL tables become Lean lists of row structures kept in insertion order,
fallible functions return `Option`/`Except`-style results, and an explicit
`panic` constructor records the places where the Rust code calls
`.unwrap()` on a fallible operation.  External cryptographic primitives
(bincode, SHA-512, Ed25519, the XChaCha20 keystream) are parameters of the
embedding, collected in the `Crypto` structure; an executable model codec
(`Manifest.encodeModel` / `Manifest.decodeModel`) instantiates them for
concrete evaluations.
-/

namespace Storage

set_option maxRecDepth 16000

/-- Bytes are modelled as natural numbers. -/
abbrev Byte := Nat

/-- `Parent` from `client/src/manifest.rs`: hash of the parent snapshot and,
for a cross-volume parent, the `(Pubkey, Secret)` pair needed to look it up.
Hashes, public keys and secrets are modelled as opaque naturals. -/
structure Parent where
  hash : Nat
  volume : Option (Nat × Nat)
deriving DecidableEq, Repr

/-- `Manifest` from `client/src/manifest.rs`.  `machine`, `path` and `data`
are carried opaquely (their contents are never inspected by the service). -/
structure Manifest where
  creation : Nat
  machine : Nat
  path : List Nat
  size : Nat
  size_total : Nat
  generation : Nat
  parent : Option Parent
  data : List Nat
deriving DecidableEq, Repr

/-- `MANIFEST_SIGNATURE_LENGTH` from `client/src/manifest.rs`. -/
def MANIFEST_SIGNATURE_LENGTH : Nat := 64

/-- `MINIMUM_SNAPSHOT_SIZE` from `src/snapshot.rs`. -/
def MINIMUM_SNAPSHOT_SIZE : Nat := 64

/-- The modulus of the `u64` machine integers carrying `size`, `size_total`
and `generation` in the source. -/
def U64_MODULUS : Nat := 2 ^ 64

/-- `Manifest::split` from `client/src/manifest.rs`: the last 64 bytes are
the signature, the preceding bytes the manifest; `None` if shorter than 64. -/
def Manifest.split (data : List Byte) : Option (List Byte × List Byte) :=
  if data.length < MANIFEST_SIGNATURE_LENGTH then none
  else some (data.take (data.length - MANIFEST_SIGNATURE_LENGTH),
             data.drop (data.length - MANIFEST_SIGNATURE_LENGTH))

/-- The external primitives used by the service, as parameters of the
embedding: `decode` is `bincode::deserialize` for `Manifest`, `verify` is
Ed25519 signature verification (`Signature::from_bytes` composed with
`PublicKey::verify`) keyed by the volume pubkey, and `sha512` is the SHA-512
content hash of the manifest bytes. -/
structure Crypto where
  decode : List Byte → Option Manifest
  verify : Nat → List Byte → List Byte → Bool
  sha512 : List Byte → Nat

/-- `ManifestSigned` from `client/src/manifest.rs`: raw encoded manifest
bytes, the decoded manifest, and the raw signature.  Equality (the derived
`PartialEq` in Rust) compares all three fields. -/
structure ManifestSigned where
  raw : List Byte
  manifest : Manifest
  signature : List Byte
deriving DecidableEq, Repr

/-- `ManifestSigned::from_parts`: decode the manifest bytes, keep raw and
signature. -/
def ManifestSigned.from_parts (C : Crypto) (manifest signature : List Byte) :
    Option ManifestSigned :=
  match C.decode manifest with
  | none => none
  | some decoded => some ⟨manifest, decoded, signature⟩

/-- `ManifestSigned::parse`: split the envelope, then `from_parts`. -/
def ManifestSigned.parse (C : Crypto) (bytes : List Byte) : Option ManifestSigned :=
  match Manifest.split bytes with
  | none => none
  | some (manifest, signature) => ManifestSigned.from_parts C manifest signature

/-- A row of the `storage_snapshot` table (columns of `src/snapshot.rs`):
`snapshot_id`, `volume_id`, `snapshot_manifest`, `snapshot_signature`,
`snapshot_hash`, `snapshot_parent`, `snapshot_generation`. -/
structure SnapRow where
  id : Nat
  volume : Nat
  raw : List Byte
  signature : List Byte
  hash : Nat
  parent : Option Nat
  generation : Nat
deriving DecidableEq, Repr

/-- The snapshot table: rows in insertion order plus the next rowid. -/
structure DB where
  rows : List SnapRow
  next : Nat
deriving DecidableEq, Repr

/-- A row of the `storage_volume` table (`src/volume.rs`): `volume_id`,
`volume_pubkey`, `account_id`, `volume_writer`, `volume_locked`. -/
structure VolumeRow where
  id : Nat
  pubkey : Nat
  account : Nat
  writer : Option Nat
  locked : Bool
deriving DecidableEq, Repr

/-- `SnapshotError` from `src/snapshot.rs`. -/
inductive SnapshotError where
  | manifestInvalid
  | database
  | missingRowid
  | wrongSizeTotal (got expected : Nat)
  | missingParent (hash : Nat)
  | manifestDecode
  | invalidGeneration (got parentGen : Nat)
  | invalidSize (size : Nat)
deriving DecidableEq, Repr

/-- `StorageError` from `src/api.rs`. -/
inductive StorageError where
  | volumeNotFound
  | internal
  | snapshot (e : SnapshotError)
  | volume
  | manifestInvalid
  | snapshotNotFound
  | database
  | manifestExists
deriving DecidableEq, Repr

/-- Result of snapshot admission: the new table state and inserted row on
success, a returned error, or a Rust panic (`.unwrap()` on a failure). -/
inductive AdmitResult where
  | ok (st : DB) (snap : SnapRow)
  | err (e : SnapshotError)
  | panic
deriving DecidableEq, Repr

/-- `Snapshot::fetch_by_hash` from `src/snapshot.rs`:
`SELECT * FROM storage_snapshot WHERE snapshot_hash = ? AND volume_id = ?`
(`fetch_optional`: the first matching row in table order). -/
def Snapshot.fetch_by_hash (st : DB) (volume : Nat) (hash : Nat) : Option SnapRow :=
  st.rows.find? (fun r => r.hash == hash && r.volume == volume)

/-- `Snapshot::create` from `src/snapshot.rs`: plain INSERT returning the
last-insert rowid. -/
def Snapshot.create (st : DB) (volume : Nat) (manifest signature : List Byte)
    (hash : Nat) (parent : Option Nat) (generation : Nat) : DB × SnapRow :=
  let row : SnapRow :=
    { id := st.next, volume := volume, raw := manifest, signature := signature,
      hash := hash, parent := parent, generation := generation }
  ({ rows := st.rows ++ [row], next := st.next + 1 }, row)

/-- `Snapshot::create_from_manifest` from `src/snapshot.rs`, lines 140–197.
Note the faithfully reproduced details: `Manifest::validate(...).unwrap()`
becomes `panic` when verification fails; the `size_total`, `generation` and
minimum-size checks run in source order and only in the same-volume-parent
branch; the expected size total `parent.manifest().size_total + parsed.size`
is a `u64` addition, which wraps modulo 2^64 in release builds (modelled
here; in debug builds the overflow panics instead); a cross-volume parent
(`parent.volume` present) skips every check and stores a NULL local
parent. -/
def Snapshot.create_from_manifest (C : Crypto) (st : DB) (volume : VolumeRow)
    (envelope : List Byte) : AdmitResult :=
  match Manifest.split envelope with
  | none => .err .manifestInvalid
  | some (manifest, signature) =>
    if C.verify volume.pubkey manifest signature = false then .panic
    else
      match C.decode manifest with
      | none => .err .manifestInvalid
      | some parsed =>
        let hash := C.sha512 manifest
        match parsed.parent with
        | some parent =>
          match parent.volume with
          | none =>
            match Snapshot.fetch_by_hash st volume.id parent.hash with
            | none => .err (.missingParent parent.hash)
            | some prow =>
              match C.decode prow.raw with
              | none => .err .manifestDecode
              | some pm =>
                if parsed.size_total ≠ (pm.size_total + parsed.size) % U64_MODULUS then
                  .err (.wrongSizeTotal parsed.size_total
                    ((pm.size_total + parsed.size) % U64_MODULUS))
                else if parsed.generation ≤ pm.generation then
                  .err (.invalidGeneration parsed.generation pm.generation)
                else if parsed.size < MINIMUM_SNAPSHOT_SIZE then
                  .err (.invalidSize parsed.size)
                else
                  let (st', row) := Snapshot.create st volume.id manifest signature
                    hash (some prow.id) parsed.generation
                  .ok st' row
          | some _ =>
            let (st', row) := Snapshot.create st volume.id manifest signature
              hash none parsed.generation
            .ok st' row
        | none =>
          if parsed.size ≠ parsed.size_total then
            .err (.wrongSizeTotal parsed.size_total parsed.size)
          else
            let (st', row) := Snapshot.create st volume.id manifest signature
              hash none parsed.generation
            .ok st' row

/-- `Snapshot::list` from `src/snapshot.rs`:
`SELECT * FROM storage_snapshot WHERE volume_id = $1 AND ($2 IS NULL OR
snapshot_parent = $2) AND ($3 = 0 OR snapshot_parent IS NULL)`.  The query
has no ORDER BY clause; rows come back in table (insertion) order.  Note
that SQL equality `snapshot_parent = $2` is false on a NULL
`snapshot_parent`. -/
def Snapshot.list (st : DB) (volume : Nat) (parent : Option Nat) (root : Bool) :
    List SnapRow :=
  st.rows.filter (fun r =>
    r.volume == volume
      && (match parent with
          | none => true
          | some p => r.parent == some p)
      && (!root || r.parent == none))

/-- `Volume::lookup` from `src/volume.rs`:
`SELECT * FROM storage_volume WHERE volume_pubkey = ?`. -/
def Volume.lookup (vols : List VolumeRow) (pubkey : Nat) : Option VolumeRow :=
  vols.find? (fun v => v.pubkey == pubkey)

/-- `Volume::writer_set` from `src/volume.rs`: UPDATE of `volume_writer`. -/
def Volume.writer_set (vols : List VolumeRow) (id : Nat) (w : Option Nat) :
    List VolumeRow :=
  vols.map (fun r => if r.id = id then { r with writer := w } else r)

/-- `Volume::account_set` from `src/volume.rs`: UPDATE of `account_id`. -/
def Volume.account_set (vols : List VolumeRow) (id : Nat) (a : Nat) :
    List VolumeRow :=
  vols.map (fun r => if r.id = id then { r with account := a } else r)

/-- `Volume::locked_set` from `src/volume.rs`: UPDATE of `volume_locked`. -/
def Volume.locked_set (vols : List VolumeRow) (id : Nat) (l : Bool) :
    List VolumeRow :=
  vols.map (fun r => if r.id = id then { r with locked := l } else r)

/-- `VolumeEdit` (three-valued `writer`: `none` = field absent from the
request, `some w` = present with value `w`, where `w : Option Nat` may be
null to clear the writer). -/
structure VolumeEdit where
  account : Option Nat
  writer : Option (Option Nat)
  lock : Option Bool
deriving DecidableEq, Repr

/-- `VolumeData::edit` from `src/volume.rs`, lines 135–156: apply the three
partial updates in source order, each one skipped when the new value equals
the value stored in the fetched row.  The row's `locked` flag is never
consulted. -/
def VolumeData.edit (vols : List VolumeRow) (v : VolumeRow) (e : VolumeEdit) :
    List VolumeRow :=
  let vols1 := match e.writer with
    | some w => if v.writer ≠ w then Volume.writer_set vols v.id w else vols
    | none => vols
  let vols2 := match e.account with
    | some a => if v.account ≠ a then Volume.account_set vols1 v.id a else vols1
    | none => vols1
  match e.lock with
  | some l => if v.locked ≠ l then Volume.locked_set vols2 v.id l else vols2
  | none => vols2

/-- `VolumeData::delete` from `src/volume.rs`
(`DELETE FROM storage_volume WHERE volume_id = ?`), together with the
snapshot cleanup.  Modelled from the spec: the migration files defining the
schema are not under `src/`; the spec states that the snapshot table has a
`volume_id` foreign key and that volume deletion "cascades to all
snapshots", so deleting a volume also removes every snapshot row of that
volume. -/
def VolumeData.delete (vols : List VolumeRow) (st : DB) (v : VolumeRow) :
    List VolumeRow × DB :=
  (vols.filter (fun r => r.id ≠ v.id),
   { st with rows := st.rows.filter (fun r => r.volume ≠ v.id) })

/-- `Snapshot::fetch_by_generation`.  Modelled from the spec: the function
is called from `src/api.rs` (`volume_snapshot_upload`) but its definition is
missing from the sources under `src/`; the spec describes it as
`fetch_by_generation(volume, generation) -> snapshot?`, the per-volume
lookup of the snapshot with the given generation, "used for idempotent
upload".  It returns the stored row; the caller decodes its manifest bytes
(`SnapshotData::from_row`). -/
def Snapshot.fetch_by_generation (st : DB) (volume : Nat) (generation : Nat) :
    Option SnapRow :=
  st.rows.find? (fun r => r.volume == volume && r.generation == generation)

/-- Result of the upload endpoint: redirect hash on success, a returned
error, or a panic, paired by the caller with the resulting table state. -/
inductive UploadRes where
  | ok (hash : Nat)
  | err (e : StorageError)
  | panic
deriving DecidableEq, Repr

/-- `volume_snapshot_upload` from `src/api.rs`, lines 122–149: look up the
volume, parse the envelope, fetch any existing snapshot with the same
generation; if one exists, compare the stored `ManifestSigned` with the
parsed one (derived `PartialEq`: raw bytes, decoded manifest, signature) and
either redirect to the stored hash or fail `ManifestExists`; otherwise admit
via `create_from_manifest` and redirect to the new row's hash.  Returns the
resulting snapshot-table state alongside the response. -/
def api.volume_snapshot_upload (C : Crypto) (vols : List VolumeRow) (st : DB)
    (pubkey : Nat) (data : List Byte) : DB × UploadRes :=
  match Volume.lookup vols pubkey with
  | none => (st, .err .volumeNotFound)
  | some volume =>
    match ManifestSigned.parse C data with
    | none => (st, .err .manifestInvalid)
    | some manifest_signed =>
      match Snapshot.fetch_by_generation st volume.id manifest_signed.manifest.generation with
      | none =>
        match Snapshot.create_from_manifest C st volume data with
        | .ok st' row => (st', .ok row.hash)
        | .err e => (st, .err (.snapshot e))
        | .panic => (st, .panic)
      | some snap =>
        match ManifestSigned.from_parts C snap.raw snap.signature with
        | none => (st, .err (.snapshot .manifestDecode))
        | some stored =>
          if stored ≠ manifest_signed then (st, .err .manifestExists)
          else (st, .ok snap.hash)

/-- `volume_delete` from `src/api.rs`, lines 90–105: look up the volume; if
the authenticated account equals the volume's account, delete it, otherwise
do nothing; both paths return success. -/
def api.volume_delete (vols : List VolumeRow) (st : DB)
    (pubkey : Nat) (account : Nat) :
    Except StorageError (List VolumeRow × DB) :=
  match Volume.lookup vols pubkey with
  | none => .error .volumeNotFound
  | some volume =>
    if volume.account = account then
      .ok (VolumeData.delete vols st volume)
    else
      .ok (vols, st)

/-! ### Executable model codec

A deterministic, injective binary codec for `Manifest`, standing in for the
external `bincode` serialization when the theorems' hypotheses have to be
discharged on concrete inputs.  `decodeModel` is a total parser and the
exact inverse of `encodeModel`. -/

/-- Length-prefixed encoding of an opaque byte list field. -/
def encodeListField (xs : List Nat) : List Nat := xs.length :: xs

/-- Tagged encoding of the optional parent field. -/
def encodeParentField : Option Parent → List Nat
  | none => [0]
  | some p =>
    match p.volume with
    | none => [1, p.hash]
    | some (pk, sec) => [2, p.hash, pk, sec]

/-- Model encoding of a manifest (stands in for `bincode::serialize`). -/
def Manifest.encodeModel (m : Manifest) : List Nat :=
  [m.creation, m.machine, m.size, m.size_total, m.generation]
    ++ encodeParentField m.parent ++ encodeListField m.path ++ encodeListField m.data

/-- Parser for a length-prefixed field. -/
def decodeListField : List Nat → Option (List Nat × List Nat)
  | [] => none
  | n :: rest => if n ≤ rest.length then some (rest.take n, rest.drop n) else none

/-- Parser for the tagged optional parent field. -/
def decodeParentField : List Nat → Option (Option Parent × List Nat)
  | 0 :: rest => some (none, rest)
  | 1 :: h :: rest => some (some ⟨h, none⟩, rest)
  | 2 :: h :: pk :: sec :: rest => some (some ⟨h, some (pk, sec)⟩, rest)
  | _ => none

/-- Model decoding of a manifest (stands in for `bincode::deserialize`). -/
def Manifest.decodeModel (bs : List Nat) : Option Manifest :=
  match bs with
  | creation :: machine :: size :: size_total :: generation :: rest =>
    match decodeParentField rest with
    | none => none
    | some (parent, rest2) =>
      match decodeListField rest2 with
      | none => none
      | some (path, rest3) =>
        match decodeListField rest3 with
        | none => none
        | some (dat, rest4) =>
          if rest4 = [] then
            some ⟨creation, machine, path, size, size_total, generation, parent, dat⟩
          else none
  | _ => none

/-- The model codec round-trips: `decodeModel (encodeModel m) = some m`. -/
theorem Manifest.decodeModel_encodeModel (m : Manifest) :
    Manifest.decodeModel (Manifest.encodeModel m) = some m := by
  rcases m with ⟨creation, machine, path, size, size_total, generation, parent, dat⟩
  have hfield : ∀ (xs rest : List Nat),
      decodeListField (encodeListField xs ++ rest) = some (xs, rest) := by
    intro xs rest
    simp [encodeListField, decodeListField, List.take_append, List.drop_append,
      List.take_left', List.drop_left']
  have hfield0 : ∀ (xs : List Nat),
      decodeListField (encodeListField xs) = some (xs, []) := by
    intro xs
    simp [encodeListField, decodeListField]
  rcases parent with _ | ⟨h, _ | ⟨pk, sec⟩⟩ <;>
    simp [Manifest.encodeModel, Manifest.decodeModel, encodeParentField,
      decodeParentField, hfield, hfield0]

/-- A `Crypto` instance built from the model codec, an arbitrary hash
function and an arbitrary verification verdict function, for concrete
evaluations. -/
def Crypto.model (verify : Nat → List Byte → List Byte → Bool)
    (sha512 : List Byte → Nat) : Crypto :=
  { decode := Manifest.decodeModel, verify := verify, sha512 := sha512 }

/-! ### Streaming cryptographic pipeline

A stream is modelled by the list of byte chunks its upstream yields (the
error-free executions the algebraic claims quantify over); a transform is a
function from the upstream chunk list to the emitted chunk list.  The
XChaCha20 cipher of the `chacha20` crate is abstracted by its keystream: a
function from the byte position to the keystream byte, determined by the
key and nonce; `apply_keystream` XORs the buffer with the keystream bytes
at the cipher's running position. -/

/-- `joinChunks cs` is the byte sequence carried by the chunk list. -/
def joinChunks (cs : List (List Byte)) : List Byte := cs.flatten

/-- `apply_keystream` on one buffer: XOR with the keystream from position
`pos` on. -/
def xorAt (ks : Nat → Byte) : Nat → List Byte → List Byte
  | _, [] => []
  | pos, b :: rest => (b ^^^ ks pos) :: xorAt ks (pos + 1) rest

/-- The steady (`Stream`) state of both cipher stream adapters: each chunk
is passed through `apply_keystream`, the cipher position advancing by the
chunk length. -/
def applyKeystreamChunks (ks : Nat → Byte) : Nat → List (List Byte) → List (List Byte)
  | _, [] => []
  | pos, c :: rest => xorAt ks pos c :: applyKeystreamChunks ks (pos + c.length) rest

/-- `EncryptionStream` from `client/src/stream/chacha20.rs` (lines 46–95),
run to completion: in the `Start` state the first poll emits the 24-byte
nonce concatenated with the keystream-XOR of the first upstream chunk (or
the nonce alone when upstream is already exhausted); every later chunk is
XORed with the continuing keystream. -/
def EncryptionStream.run (ks : Nat → Byte) (nonce : List Byte)
    (chunks : List (List Byte)) : List (List Byte) :=
  match chunks with
  | [] => [nonce]
  | c :: rest => (nonce ++ xorAt ks 0 c) :: applyKeystreamChunks ks c.length rest

/-- The `Start` state of `DecryptionStream` from `src/chacha20.rs` (lines
94–146): accumulate the first 24 upstream bytes as the nonce, emitting an
empty chunk while it is incomplete; once complete, decrypt the remainder of
the current chunk with a fresh keystream for that nonce and move to the
`Stream` state.  `ksOf nonce` is the keystream determined by the (fixed)
key and the assembled nonce. -/
def DecryptionStream.runStart (ksOf : List Byte → Nat → Byte) :
    List Byte → List (List Byte) → List (List Byte)
  | _, [] => []
  | buf, c :: rest =>
    let need := 24 - buf.length
    let buf' := buf ++ c.take need
    if buf'.length = 24 then
      let remainder := c.drop need
      xorAt (ksOf buf') 0 remainder
        :: applyKeystreamChunks (ksOf buf') remainder.length rest
    else
      [] :: DecryptionStream.runStart ksOf buf' rest

/-- `DecryptionStream`, run to completion from its initial state (empty
nonce buffer). -/
def DecryptionStream.run (ksOf : List Byte → Nat → Byte)
    (chunks : List (List Byte)) : List (List Byte) :=
  DecryptionStream.runStart ksOf [] chunks

/-- `SignStream` from `src/ed25519.rs` (lines 54–86), run to completion on
an error-free upstream: every chunk passes through verbatim while feeding a
running SHA-512; at upstream end one final chunk is emitted, the Ed25519
signature of the accumulated digest under the private key
(`sign_prehashed`).  `sha512` maps the hashed byte sequence to its digest;
`sign` maps (private key, digest) to the 64-byte signature. -/
def SignStream.run (sha512 : List Byte → Nat) (sign : Nat → Nat → List Byte)
    (privkey : Nat) (chunks : List (List Byte)) : List (List Byte) :=
  chunks ++ [sign privkey (sha512 (joinChunks chunks))]

/-- The mutable state of `VerifyStream`: the trailing-bytes buffer and the
byte sequence fed to the running SHA-512 hasher so far. -/
structure VerifyState where
  buffer : List Byte
  hashed : List Byte
deriving DecidableEq, Repr

/-- One `Poll::Ready(Some(Ok(bytes)))` arm of `VerifyStream::poll_next`
from `src/ed25519.rs` (lines 167–208), as a function from state and chunk
to (chunks emitted before the next upstream poll, new state).  While fewer
than 64 bytes are buffered an empty chunk is emitted; otherwise the bytes
beyond the trailing 64 are emitted (the current chunk's overflow going
through the one-chunk queue) and hashed. -/
def VerifyStream.step (st : VerifyState) (c : List Byte) :
    List (List Byte) × VerifyState :=
  let total := st.buffer.length + c.length
  if total ≤ 64 then
    ([[]], ⟨st.buffer ++ c, st.hashed⟩)
  else
    let done := total - 64
    if st.buffer.length ≤ done then
      let pfx := c.take (c.length - 64)
      (st.buffer :: (if pfx.isEmpty then [] else [pfx]),
       ⟨c.drop (c.length - 64), st.hashed ++ st.buffer ++ pfx⟩)
    else
      let retval := st.buffer.take done
      ([retval], ⟨st.buffer.drop done ++ c, st.hashed ++ retval⟩)

/-- Run `VerifyStream` over all upstream chunks (the queue of a step is
always drained before the next upstream poll). -/
def VerifyStream.runChunks : VerifyState → List (List Byte) → List (List Byte) × VerifyState
  | st, [] => ([], st)
  | st, c :: rest =>
    let out := VerifyStream.step st c
    let outs := VerifyStream.runChunks out.2 rest
    (out.1 ++ outs.1, outs.2)

/-- `VerifyStream` from `src/ed25519.rs` (lines 151–244), run to
completion: process every chunk, then the `Poll::Ready(None)` arm: with
fewer than 64 bytes ever buffered the verification fails (`Incorrect`);
otherwise the buffered 64 bytes are checked as a signature of the
accumulated digest under the public key.  Returns the emitted chunks and
the terminal decision (`true` = valid, `false` = the `Incorrect` error).
`verify` maps (public key, digest, signature bytes) to the verdict of
`Signature::from_bytes` composed with `verify_prehashed`. -/
def VerifyStream.run (sha512 : List Byte → Nat)
    (verify : Nat → Nat → List Byte → Bool) (pubkey : Nat)
    (chunks : List (List Byte)) : List (List Byte) × Bool :=
  let r := VerifyStream.runChunks ⟨[], []⟩ chunks
  if r.2.buffer.length < 64 then (r.1, false)
  else (r.1, verify pubkey (sha512 r.2.hashed) r.2.buffer)

/-! ### Basic facts about the envelope split -/

/-- Splitting an envelope assembled from manifest bytes and a 64-byte
signature recovers the two parts. -/
theorem Manifest.split_append (mb sig : List Byte)
    (hs : sig.length = MANIFEST_SIGNATURE_LENGTH) :
    Manifest.split (mb ++ sig) = some (mb, sig) := by
  unfold Manifest.split
  rw [List.length_append, hs]
  simp [MANIFEST_SIGNATURE_LENGTH, List.take_left', List.drop_left']

/-- Inversion of `ManifestSigned.parse`: the parsed pieces are the split of
the envelope, the manifest is the decoding of the manifest bytes, the
envelope is their concatenation, and the signature has length 64. -/
theorem ManifestSigned.parse_inversion (C : Crypto) (data : List Byte)
    (ms : ManifestSigned) (h : ManifestSigned.parse C data = some ms) :
    Manifest.split data = some (ms.raw, ms.signature) ∧
    C.decode ms.raw = some ms.manifest ∧
    data = ms.raw ++ ms.signature ∧
    ms.signature.length = MANIFEST_SIGNATURE_LENGTH := by
  unfold ManifestSigned.parse ManifestSigned.from_parts at h
  rcases hsplit : Manifest.split data with _ | ⟨mb, sig⟩ <;> rw [hsplit] at h
  · cases h
  · rcases hdec : C.decode mb with _ | m <;> simp only [hdec] at h
    · cases h
    · injection h with h
      subst h
      have hlen : ¬ data.length < MANIFEST_SIGNATURE_LENGTH := by
        by_contra hcon
        unfold Manifest.split at hsplit
        simp [hcon] at hsplit
      unfold Manifest.split at hsplit
      rw [if_neg hlen] at hsplit
      cases hsplit
      refine ⟨rfl, hdec, ?_, ?_⟩
      · exact (List.take_append_drop _ _).symm
      · rw [List.length_drop]
        omega

/-! ### C10 — volume deletion requires the owning account -/

/-- C10: for every existing volume, a DELETE by an authenticated account
different from the volume's owning account returns success while deleting
nothing (volumes and snapshots unchanged); a DELETE by the owning account
returns success and removes the volume row and exactly the snapshots of
that volume. -/
theorem C10_delete_requires_owner (vols : List VolumeRow) (st : DB)
    (pk acct : Nat) (v : VolumeRow) (hl : Volume.lookup vols pk = some v) :
    (v.account ≠ acct → api.volume_delete vols st pk acct = .ok (vols, st)) ∧
    (v.account = acct →
      api.volume_delete vols st pk acct = .ok (VolumeData.delete vols st v) ∧
      (∀ r ∈ (VolumeData.delete vols st v).1, r.id ≠ v.id) ∧
      (∀ r ∈ (VolumeData.delete vols st v).2.rows, r.volume ≠ v.id) ∧
      (∀ r ∈ vols, r.id ≠ v.id → r ∈ (VolumeData.delete vols st v).1) ∧
      (∀ r ∈ st.rows, r.volume ≠ v.id → r ∈ (VolumeData.delete vols st v).2.rows)) := by
  constructor
  · intro hne
    simp [api.volume_delete, hl, hne]
  · intro heq
    refine ⟨by simp [api.volume_delete, hl, heq], ?_, ?_, ?_, ?_⟩
    · intro r hr
      simpa using (List.mem_filter.mp hr).2
    · intro r hr
      simpa using (List.mem_filter.mp hr).2
    · intro r hr hne
      exact List.mem_filter.mpr ⟨hr, by simpa using hne⟩
    · intro r hr hne
      exact List.mem_filter.mpr ⟨hr, by simpa using hne⟩

/-- Witness for C10 at a concrete volume table. -/
theorem C10_delete_requires_owner_witness :
    api.volume_delete [⟨1, 5, 10, none, false⟩] ⟨[], 0⟩ 5 99
      = .ok ([⟨1, 5, 10, none, false⟩], ⟨[], 0⟩) :=
  (C10_delete_requires_owner [⟨1, 5, 10, none, false⟩] ⟨[], 0⟩ 5 99
    ⟨1, 5, 10, none, false⟩ rfl).1 (by decide)

/-! ### Concrete fixtures for witnesses and counterexamples -/

/-- A `Crypto` instance for concrete runs: the model codec, a signature
verification that accepts (standing for envelopes signed with the volume
key), and the byte-sum as stand-in content hash. -/
def cryptoYes : Crypto := Crypto.model (fun _ _ _ => true) (fun bs => bs.sum)

/-- A minimal root manifest (generation 0, size = size_total = 64). -/
def mTest : Manifest := ⟨0, 0, [], 64, 64, 0, none, []⟩

/-- Encoded bytes of `mTest`. -/
def rawTest : List Byte := Manifest.encodeModel mTest

/-- A 64-byte signature placeholder. -/
def sigTest : List Byte := List.replicate 64 1

/-- The envelope carrying `mTest`. -/
def dataTest : List Byte := rawTest ++ sigTest

/-- A stored snapshot row holding `mTest` at generation 0. -/
def snapTest : SnapRow := ⟨0, 1, rawTest, sigTest, 99, none, 0⟩

/-- A snapshot table holding exactly `snapTest`. -/
def stTest : DB := ⟨[snapTest], 1⟩

/-- A volume table with one unlocked volume (id 1, pubkey 5, account 10). -/
def volsTest : List VolumeRow := [⟨1, 5, 10, none, false⟩]

/-! ### C1 — upload idempotence per (volume, generation) -/

/-- C1: snapshot upload is idempotent per (volume, generation).  When a
snapshot with the uploaded manifest's generation is already stored in the
volume and its stored envelope (manifest bytes plus signature) equals the
incoming envelope byte-for-byte, the upload succeeds with the stored
snapshot's hash and the table is unchanged; when the envelopes differ the
upload fails with `ManifestExists` and the table is unchanged. -/
theorem C1_upload_idempotent (C : Crypto) (vols : List VolumeRow) (st : DB)
    (pk : Nat) (data : List Byte) (v : VolumeRow) (ms : ManifestSigned)
    (snap : SnapRow)
    (hv : Volume.lookup vols pk = some v)
    (hms : ManifestSigned.parse C data = some ms)
    (hfg : Snapshot.fetch_by_generation st v.id ms.manifest.generation = some snap)
    (hsig : snap.signature.length = MANIFEST_SIGNATURE_LENGTH)
    (hdec : C.decode snap.raw ≠ none) :
    (snap.raw ++ snap.signature = data →
      api.volume_snapshot_upload C vols st pk data = (st, .ok snap.hash)) ∧
    (snap.raw ++ snap.signature ≠ data →
      api.volume_snapshot_upload C vols st pk data = (st, .err .manifestExists)) := by
  obtain ⟨hsplit, hdecraw, hdata, hmslen⟩ := ManifestSigned.parse_inversion C data ms hms
  constructor
  · intro heq
    have happ : snap.raw ++ snap.signature = ms.raw ++ ms.signature := by
      rw [heq, hdata]
    obtain ⟨hr, hs⟩ := List.append_inj' happ (by rw [hsig, hmslen])
    have hfp : ManifestSigned.from_parts C snap.raw snap.signature = some ms := by
      rw [hr, hs]
      unfold ManifestSigned.from_parts
      rw [hdecraw]
    simp [api.volume_snapshot_upload, hv, hms, hfg, hfp]
  · intro hne
    obtain ⟨sm, hsm⟩ := Option.ne_none_iff_exists'.mp hdec
    have hfp : ManifestSigned.from_parts C snap.raw snap.signature
        = some ⟨snap.raw, sm, snap.signature⟩ := by
      unfold ManifestSigned.from_parts
      rw [hsm]
    have hne2 : (⟨snap.raw, sm, snap.signature⟩ : ManifestSigned) ≠ ms := by
      intro hcon
      apply hne
      have h1 : snap.raw = ms.raw := congrArg ManifestSigned.raw hcon
      have h2 : snap.signature = ms.signature := congrArg ManifestSigned.signature hcon
      rw [h1, h2, ← hdata]
    simp [api.volume_snapshot_upload, hv, hms, hfg, hfp, hne2]

/-- Witness for C1: re-uploading the stored envelope of `snapTest` returns
its hash and leaves the table unchanged. -/
theorem C1_upload_idempotent_witness :
    api.volume_snapshot_upload cryptoYes volsTest stTest 5 dataTest
      = (stTest, .ok 99) :=
  (C1_upload_idempotent cryptoYes volsTest stTest 5 dataTest
    ⟨1, 5, 10, none, false⟩ ⟨rawTest, mTest, sigTest⟩ snapTest
    (by decide) (by decide) (by decide) (by decide) (by decide)).1 (by decide)

/-! ### C8 — the `locked` flag does not reject mutations -/

/-- C8 (code bug): the `locked` flag of a volume, documented in
`src/volume.rs` as "Prevent any changes to the volume in the database", is
never consulted: on a locked volume a PATCH applies the account change and
a snapshot upload inserts a row. -/
theorem C8_locked_not_enforced :
    (VolumeRow.locked ⟨1, 5, 10, none, true⟩ = true) ∧
    (VolumeData.edit [⟨1, 5, 10, none, true⟩] ⟨1, 5, 10, none, true⟩
        ⟨some 77, none, none⟩ = [⟨1, 5, 77, none, true⟩]) ∧
    ((api.volume_snapshot_upload cryptoYes [⟨1, 5, 10, none, true⟩] ⟨[], 0⟩
        5 dataTest).2 = .ok rawTest.sum) ∧
    ((api.volume_snapshot_upload cryptoYes [⟨1, 5, 10, none, true⟩] ⟨[], 0⟩
        5 dataTest).1.rows.length = 1) := by
  refine ⟨rfl, by decide, by decide, by decide⟩

/-! ### C3 — envelope validation: short envelope errors, bad signature panics -/

/-- A `Crypto` instance whose signature verification always rejects
(standing for an envelope whose trailing bytes are not a valid signature of
the manifest bytes under the volume pubkey). -/
def cryptoNo : Crypto := Crypto.model (fun _ _ _ => false) (fun bs => bs.sum)

/-- C3 (code bug): an envelope shorter than 64 bytes makes admission return
the `ManifestInvalid` error as claimed, but an envelope whose signature
does not verify makes `create_from_manifest` panic — the code calls
`Manifest::validate(...).unwrap()` — instead of returning `ManifestInvalid`.
The final conjunct evaluates the failing input: a 128-byte envelope with an
invalid signature. -/
theorem C3_invalid_signature_panics :
    (∀ (C : Crypto) (st : DB) (v : VolumeRow) (env : List Byte),
      env.length < MANIFEST_SIGNATURE_LENGTH →
      Snapshot.create_from_manifest C st v env = .err .manifestInvalid) ∧
    (∀ (C : Crypto) (st : DB) (v : VolumeRow) (env mb sig : List Byte),
      Manifest.split env = some (mb, sig) →
      C.verify v.pubkey mb sig = false →
      Snapshot.create_from_manifest C st v env = .panic) ∧
    (Snapshot.create_from_manifest cryptoNo ⟨[], 0⟩ ⟨1, 5, 10, none, false⟩
      (List.replicate 128 0) = .panic) := by
  refine ⟨?_, ?_, by decide⟩
  · intro C st v env hshort
    unfold Snapshot.create_from_manifest Manifest.split
    simp [hshort]
  · intro C st v env mb sig hsplit hver
    unfold Snapshot.create_from_manifest
    rw [hsplit]
    simp [hver]

/-- Witness for C3 at concrete inputs: a 3-byte envelope is rejected with
`ManifestInvalid`, and a well-formed envelope whose signature does not
verify panics. -/
theorem C3_invalid_signature_panics_witness :
    (Snapshot.create_from_manifest cryptoYes ⟨[], 0⟩ ⟨1, 5, 10, none, false⟩
      [0, 1, 2] = .err .manifestInvalid) ∧
    (Snapshot.create_from_manifest cryptoNo ⟨[], 0⟩ ⟨1, 5, 10, none, false⟩
      dataTest = .panic) :=
  ⟨C3_invalid_signature_panics.1 cryptoYes ⟨[], 0⟩ ⟨1, 5, 10, none, false⟩
      [0, 1, 2] (by decide),
   C3_invalid_signature_panics.2.1 cryptoNo ⟨[], 0⟩ ⟨1, 5, 10, none, false⟩
      dataTest rawTest sigTest (by decide) (by decide)⟩

/-! ### C4 — the minimum-size floor only guards the same-volume-parent path -/

/-- A degenerate root manifest of size 0. -/
def mSmall : Manifest := ⟨0, 0, [], 0, 0, 0, none, []⟩

/-- The envelope carrying `mSmall`. -/
def envSmall : List Byte := Manifest.encodeModel mSmall ++ List.replicate 64 2

/-- Counterexample to C4: a root manifest with `size = 0 <
MINIMUM_SNAPSHOT_SIZE` is admitted (a row is inserted), instead of failing
`InvalidSize` as the claim states for every manifest. -/
theorem C4_counterexample :
    mSmall.size < MINIMUM_SNAPSHOT_SIZE ∧
    Snapshot.create_from_manifest cryptoYes ⟨[], 0⟩ ⟨1, 5, 10, none, false⟩ envSmall
      = .ok ⟨[⟨0, 1, Manifest.encodeModel mSmall, List.replicate 64 2,
               (Manifest.encodeModel mSmall).sum, none, 0⟩], 1⟩
            ⟨0, 1, Manifest.encodeModel mSmall, List.replicate 64 2,
               (Manifest.encodeModel mSmall).sum, none, 0⟩ ∧
    Snapshot.create_from_manifest cryptoYes ⟨[], 0⟩ ⟨1, 5, 10, none, false⟩ envSmall
      ≠ .err (.invalidSize mSmall.size) := by
  decide

/-- C4 (amended): the `size ≥ MINIMUM_SNAPSHOT_SIZE` floor is enforced only
for manifests with a same-volume parent — there, once the parent is found
and the `size_total` and generation checks pass, `size <
MINIMUM_SNAPSHOT_SIZE` fails with `InvalidSize` and nothing is inserted;
root manifests (with the correct `size_total`) and manifests with a
cross-volume parent are admitted regardless of their size. -/
theorem C4_minimum_size_same_volume_only (C : Crypto) (st : DB) (v : VolumeRow)
    (env mb sig : List Byte) (m : Manifest)
    (hsplit : Manifest.split env = some (mb, sig))
    (hver : C.verify v.pubkey mb sig = true)
    (hdec : C.decode mb = some m) :
    (∀ par prow pm, m.parent = some par → par.volume = none →
      Snapshot.fetch_by_hash st v.id par.hash = some prow →
      C.decode prow.raw = some pm →
      m.size_total = (pm.size_total + m.size) % U64_MODULUS →
      pm.generation < m.generation →
      m.size < MINIMUM_SNAPSHOT_SIZE →
      Snapshot.create_from_manifest C st v env = .err (.invalidSize m.size)) ∧
    (m.parent = none → m.size_total = m.size →
      Snapshot.create_from_manifest C st v env
        = .ok ⟨st.rows ++ [⟨st.next, v.id, mb, sig, C.sha512 mb, none, m.generation⟩],
               st.next + 1⟩
              ⟨st.next, v.id, mb, sig, C.sha512 mb, none, m.generation⟩) ∧
    (∀ par pv, m.parent = some par → par.volume = some pv →
      Snapshot.create_from_manifest C st v env
        = .ok ⟨st.rows ++ [⟨st.next, v.id, mb, sig, C.sha512 mb, none, m.generation⟩],
               st.next + 1⟩
              ⟨st.next, v.id, mb, sig, C.sha512 mb, none, m.generation⟩) := by
  refine ⟨?_, ?_, ?_⟩
  · intro par prow pm hpar hpv hfetch hdecp hst hgen hsize
    unfold Snapshot.create_from_manifest
    rw [hsplit]
    simp [hver, hdec, hpar, hpv, hfetch, hdecp, hst, Nat.not_lt.mpr (Nat.le_of_lt hgen),
      Nat.not_le.mpr hgen, hsize]
  · intro hpar hst
    unfold Snapshot.create_from_manifest
    rw [hsplit]
    simp [hver, hdec, hpar, hst, Snapshot.create]
  · intro par pv hpar hpv
    unfold Snapshot.create_from_manifest
    rw [hsplit]
    simp [hver, hdec, hpar, hpv, Snapshot.create]

/-- Witness for the amended C4: the size-0 root envelope from the
counterexample is admitted via the root branch. -/
theorem C4_minimum_size_same_volume_only_witness :
    Snapshot.create_from_manifest cryptoYes ⟨[], 0⟩ ⟨1, 5, 10, none, false⟩ envSmall
      = .ok ⟨[⟨0, 1, Manifest.encodeModel mSmall, List.replicate 64 2,
               (Manifest.encodeModel mSmall).sum, none, 0⟩], 1⟩
            ⟨0, 1, Manifest.encodeModel mSmall, List.replicate 64 2,
               (Manifest.encodeModel mSmall).sum, none, 0⟩ :=
  (C4_minimum_size_same_volume_only cryptoYes ⟨[], 0⟩ ⟨1, 5, 10, none, false⟩
    envSmall (Manifest.encodeModel mSmall) (List.replicate 64 2) mSmall
    (by decide) (by decide) (by decide)).2.1 (by decide) (by decide)

/-! ### C9 — cross-volume parents are stored with a NULL local parent -/

/-- C9: an admitted manifest whose parent carries a volume field
(cross-volume parent) is stored with a NULL local parent reference; the
inserted row is therefore returned by `list` with `root = true` like a
root, and is never returned by a `list` filtered on any parent id. -/
theorem C9_cross_volume_parent (C : Crypto) (st : DB) (v : VolumeRow)
    (env mb sig : List Byte) (m : Manifest) (par : Parent) (pv : Nat × Nat)
    (hsplit : Manifest.split env = some (mb, sig))
    (hver : C.verify v.pubkey mb sig = true)
    (hdec : C.decode mb = some m)
    (hpar : m.parent = some par)
    (hpv : par.volume = some pv) :
    Snapshot.create_from_manifest C st v env
      = .ok ⟨st.rows ++ [⟨st.next, v.id, mb, sig, C.sha512 mb, none, m.generation⟩],
             st.next + 1⟩
            ⟨st.next, v.id, mb, sig, C.sha512 mb, none, m.generation⟩ ∧
    (⟨st.next, v.id, mb, sig, C.sha512 mb, none, m.generation⟩ : SnapRow)
      ∈ Snapshot.list
          ⟨st.rows ++ [⟨st.next, v.id, mb, sig, C.sha512 mb, none, m.generation⟩],
           st.next + 1⟩ v.id none true ∧
    (∀ (p : Nat) (rt : Bool),
      (⟨st.next, v.id, mb, sig, C.sha512 mb, none, m.generation⟩ : SnapRow)
        ∉ Snapshot.list
            ⟨st.rows ++ [⟨st.next, v.id, mb, sig, C.sha512 mb, none, m.generation⟩],
             st.next + 1⟩ v.id (some p) rt) := by
  refine ⟨?_, ?_, ?_⟩
  · unfold Snapshot.create_from_manifest
    rw [hsplit]
    simp [hver, hdec, hpar, hpv, Snapshot.create]
  · refine List.mem_filter.mpr ⟨List.mem_append_right _ (List.mem_singleton.mpr rfl), ?_⟩
    simp
  · intro p rt hmem
    have := (List.mem_filter.mp hmem).2
    simp at this

/-- Witness for C9: a concrete cross-volume-parent manifest is admitted
with a NULL parent and listed as a root. -/
theorem C9_cross_volume_parent_witness :
    Snapshot.create_from_manifest cryptoYes ⟨[], 0⟩ ⟨1, 5, 10, none, false⟩
        (Manifest.encodeModel ⟨0, 0, [], 64, 7, 9, some ⟨42, some (8, 6)⟩, []⟩
          ++ List.replicate 64 3)
      = .ok ⟨[⟨0, 1, Manifest.encodeModel ⟨0, 0, [], 64, 7, 9, some ⟨42, some (8, 6)⟩, []⟩,
               List.replicate 64 3,
               (Manifest.encodeModel ⟨0, 0, [], 64, 7, 9, some ⟨42, some (8, 6)⟩, []⟩).sum,
               none, 9⟩], 1⟩
            ⟨0, 1, Manifest.encodeModel ⟨0, 0, [], 64, 7, 9, some ⟨42, some (8, 6)⟩, []⟩,
               List.replicate 64 3,
               (Manifest.encodeModel ⟨0, 0, [], 64, 7, 9, some ⟨42, some (8, 6)⟩, []⟩).sum,
               none, 9⟩ :=
  (C9_cross_volume_parent cryptoYes ⟨[], 0⟩ ⟨1, 5, 10, none, false⟩
    (Manifest.encodeModel ⟨0, 0, [], 64, 7, 9, some ⟨42, some (8, 6)⟩, []⟩
      ++ List.replicate 64 3)
    (Manifest.encodeModel ⟨0, 0, [], 64, 7, 9, some ⟨42, some (8, 6)⟩, []⟩)
    (List.replicate 64 3) ⟨0, 0, [], 64, 7, 9, some ⟨42, some (8, 6)⟩, []⟩
    ⟨42, some (8, 6)⟩ (8, 6)
    (by decide) (by decide) (by decide) (by decide) (by decide)).1

/-! ### C7 — list ordering -/

/-- The state after uploading a generation-5 root snapshot to an empty
volume. -/
def dbGen5 : DB :=
  (api.volume_snapshot_upload cryptoYes volsTest ⟨[], 0⟩ 5
    (Manifest.encodeModel ⟨0, 0, [], 64, 64, 5, none, []⟩ ++ List.replicate 64 4)).1

/-- The state after then uploading a generation-3 root snapshot. -/
def dbGen53 : DB :=
  (api.volume_snapshot_upload cryptoYes volsTest dbGen5 5
    (Manifest.encodeModel ⟨0, 0, [], 64, 64, 3, none, []⟩ ++ List.replicate 64 6)).1

/-- Counterexample to C7: after admitting a generation-5 and then a
generation-3 root snapshot through the upload path, `list` returns them in
insertion order `[5, 3]`, not ordered by generation ascending. -/
theorem C7_counterexample :
    ((api.volume_snapshot_upload cryptoYes volsTest ⟨[], 0⟩ 5
        (Manifest.encodeModel ⟨0, 0, [], 64, 64, 5, none, []⟩ ++ List.replicate 64 4)).2
      = .ok ((Manifest.encodeModel ⟨0, 0, [], 64, 64, 5, none, []⟩).sum)) ∧
    ((api.volume_snapshot_upload cryptoYes volsTest dbGen5 5
        (Manifest.encodeModel ⟨0, 0, [], 64, 64, 3, none, []⟩ ++ List.replicate 64 6)).2
      = .ok ((Manifest.encodeModel ⟨0, 0, [], 64, 64, 3, none, []⟩).sum)) ∧
    ((Snapshot.list dbGen53 1 none false).map SnapRow.generation = [5, 3]) ∧
    ¬ List.Sorted (· ≤ ·) ((Snapshot.list dbGen53 1 none false).map SnapRow.generation) := by
  refine ⟨by decide, by decide, by decide, ?_⟩
  intro hsorted
  have h53 : (Snapshot.list dbGen53 1 none false).map SnapRow.generation = [5, 3] := by
    decide
  rw [h53] at hsorted
  have := List.rel_of_sorted_cons hsorted 3 (List.mem_singleton.mpr rfl)
  omega

/-- C7 (amended): `list` returns exactly the stored snapshots of the volume
matching the parent and root filters, in table (insertion) order — the
query has no ORDER BY clause, so the result is a filter of the stored rows,
a sublist preserving insertion order. -/
theorem C7_list_filter_in_insertion_order (st : DB) (volume : Nat)
    (parent : Option Nat) (root : Bool) :
    List.Sublist (Snapshot.list st volume parent root) st.rows ∧
    (∀ r, r ∈ Snapshot.list st volume parent root ↔
      (r ∈ st.rows ∧ r.volume = volume ∧
       (∀ p, parent = some p → r.parent = some p) ∧
       (root = true → r.parent = none))) := by
  constructor
  · exact List.filter_sublist _
  · intro r
    rcases parent with _ | p <;> rcases root <;>
      simp [Snapshot.list, List.mem_filter, and_assoc]

/-- Witness for the amended C7 on the concrete two-snapshot state. -/
theorem C7_list_filter_in_insertion_order_witness :
    List.Sublist (Snapshot.list dbGen53 1 none false) dbGen53.rows ∧
    (∀ r, r ∈ Snapshot.list dbGen53 1 none false ↔
      (r ∈ dbGen53.rows ∧ r.volume = 1 ∧
       (∀ p, (none : Option Nat) = some p → r.parent = some p) ∧
       (false = true → r.parent = none))) :=
  C7_list_filter_in_insertion_order dbGen53 1 none false

/-! ### C2 — admission checks and the chain invariant -/

/-- Inversion of a successful admission: the envelope split, verified and
decoded, the new state is the old one with exactly the new row appended,
and the row's fields come from the manifest; the parent link was resolved
through exactly one of the three branches (root, cross-volume parent,
same-volume parent with all checks passed). -/
theorem create_from_manifest_ok (C : Crypto) (st : DB) (v : VolumeRow)
    (env : List Byte) (st' : DB) (row : SnapRow)
    (h : Snapshot.create_from_manifest C st v env = .ok st' row) :
    ∃ mb sig parsed,
      Manifest.split env = some (mb, sig) ∧
      C.verify v.pubkey mb sig = true ∧
      C.decode mb = some parsed ∧
      st' = ⟨st.rows ++ [row], st.next + 1⟩ ∧
      row.id = st.next ∧ row.volume = v.id ∧ row.raw = mb ∧
      row.signature = sig ∧ row.hash = C.sha512 mb ∧
      row.generation = parsed.generation ∧
      ((parsed.parent = none ∧ parsed.size_total = parsed.size ∧ row.parent = none) ∨
       (∃ par pv, parsed.parent = some par ∧ par.volume = some pv ∧ row.parent = none) ∨
       (∃ par prow pm, parsed.parent = some par ∧ par.volume = none ∧
         Snapshot.fetch_by_hash st v.id par.hash = some prow ∧
         C.decode prow.raw = some pm ∧
         parsed.size_total = (pm.size_total + parsed.size) % U64_MODULUS ∧
         pm.generation < parsed.generation ∧
         MINIMUM_SNAPSHOT_SIZE ≤ parsed.size ∧
         row.parent = some prow.id)) := by
  unfold Snapshot.create_from_manifest at h
  rcases hsplit : Manifest.split env with _ | ⟨mb, sig⟩ <;> rw [hsplit] at h
  · cases h
  · rcases hver : C.verify v.pubkey mb sig
    · simp [hver] at h
    · simp only [hver, Bool.true_eq_false, if_false] at h
      rcases hdec : C.decode mb with _ | parsed <;> simp only [hdec] at h
      · simp at h
      · rcases hpar : parsed.parent with _ | par <;> simp only [hpar] at h
        · by_cases hsz : parsed.size = parsed.size_total
          · simp only [Snapshot.create, hsz, ne_eq, not_true_eq_false,
              if_false, Bool.false_eq_true, ite_false, AdmitResult.ok.injEq] at h
            obtain ⟨hst, hrow⟩ := h
            subst hst
            subst hrow
            exact ⟨mb, sig, parsed, rfl, hver, hdec, rfl, rfl, rfl, rfl, rfl, rfl,
              rfl, Or.inl ⟨hpar, hsz.symm, rfl⟩⟩
          · simp [hsz] at h
        · rcases hpv : par.volume with _ | pv <;> simp only [hpv] at h
          · rcases hfetch : Snapshot.fetch_by_hash st v.id par.hash with _ | prow <;>
              simp only [hfetch] at h
            · cases h
            · rcases hdecp : C.decode prow.raw with _ | pm <;> simp only [hdecp] at h
              · cases h
              · by_cases h1 : parsed.size_total = (pm.size_total + parsed.size) % U64_MODULUS
                · by_cases h2 : parsed.generation ≤ pm.generation
                  · simp [h1, h2] at h
                  · by_cases h3 : parsed.size < MINIMUM_SNAPSHOT_SIZE
                    · simp [h1, h2, h3] at h
                    · simp only [Snapshot.create, h1, ne_eq, not_true_eq_false,
                        if_false, ite_false, if_neg h2, if_neg h3,
                        AdmitResult.ok.injEq] at h
                      obtain ⟨hst, hrow⟩ := h
                      subst hst
                      subst hrow
                      exact ⟨mb, sig, parsed, rfl, hver, hdec, rfl, rfl, rfl, rfl,
                        rfl, rfl, rfl,
                        Or.inr (Or.inr ⟨par, prow, pm, hpar, hpv, hfetch, hdecp, h1,
                          Nat.lt_of_not_le h2, Nat.le_of_not_lt h3, rfl⟩)⟩
                · simp [h1] at h
          · simp only [Snapshot.create, AdmitResult.ok.injEq] at h
            obtain ⟨hst, hrow⟩ := h
            subst hst
            subst hrow
            exact ⟨mb, sig, parsed, rfl, hver, hdec, rfl, rfl, rfl, rfl, rfl, rfl,
              rfl, Or.inr (Or.inl ⟨par, pv, hpar, hpv, rfl⟩)⟩

/-- The invariants maintained by the snapshot table: rowids are below the
next rowid and unique; every row's manifest bytes decode, its stored
generation column matches the decoded generation, and a decoded root
manifest satisfies `size_total = size`; every local parent link points to
an existing row of the same volume whose decoded manifest satisfies the
generation check and the u64-wrapped running-sum check. -/
def DB.WellFormed (C : Crypto) (st : DB) : Prop :=
  (∀ r ∈ st.rows, r.id < st.next) ∧
  (∀ r ∈ st.rows, ∀ r' ∈ st.rows, r.id = r'.id → r = r') ∧
  (∀ r ∈ st.rows, ∃ m, C.decode r.raw = some m ∧ r.generation = m.generation ∧
    (m.parent = none → m.size_total = m.size)) ∧
  (∀ r ∈ st.rows, ∀ pid, r.parent = some pid →
    ∃ p, p ∈ st.rows ∧ p.id = pid ∧ p.volume = r.volume ∧
      ∃ m pm, C.decode r.raw = some m ∧ C.decode p.raw = some pm ∧
        pm.generation < m.generation ∧
        m.size_total = (pm.size_total + m.size) % U64_MODULUS)

/-- Successful admission preserves the table invariants. -/
theorem WellFormed_create_from_manifest (C : Crypto) (st : DB) (v : VolumeRow)
    (env : List Byte) (st' : DB) (row : SnapRow)
    (hwf : DB.WellFormed C st)
    (h : Snapshot.create_from_manifest C st v env = .ok st' row) :
    DB.WellFormed C st' := by
  obtain ⟨mb, sig, parsed, hsplit, hver, hdec, hst, hid, hvol, hraw, hsig, hhash,
    hgen, hbranch⟩ := create_from_manifest_ok C st v env st' row h
  obtain ⟨wf1, wf2, wf3, wf4⟩ := hwf
  subst hst
  refine ⟨?_, ?_, ?_, ?_⟩
  · intro r hr
    rcases List.mem_append.mp hr with hr | hr
    · exact Nat.lt_succ_of_lt (wf1 r hr)
    · rw [List.mem_singleton.mp hr, hid]
      exact Nat.lt_succ_self _
  · intro r hr r' hr' hide
    rcases List.mem_append.mp hr with hr | hr <;>
      rcases List.mem_append.mp hr' with hr' | hr'
    · exact wf2 r hr r' hr' hide
    · exfalso
      rw [List.mem_singleton.mp hr', hid] at hide
      exact Nat.lt_irrefl _ (hide ▸ wf1 r hr)
    · exfalso
      rw [List.mem_singleton.mp hr, hid] at hide
      exact Nat.lt_irrefl _ (hide ▸ wf1 r' hr')
    · rw [List.mem_singleton.mp hr, List.mem_singleton.mp hr']
  · intro r hr
    rcases List.mem_append.mp hr with hr | hr
    · exact wf3 r hr
    · rw [List.mem_singleton.mp hr]
      refine ⟨parsed, hraw ▸ hdec, hgen, ?_⟩
      intro hpn
      rcases hbranch with ⟨_, hsz, _⟩ | ⟨par, pv, hpar, _, _⟩ | ⟨par, _, _, hpar, _⟩
      · exact hsz
      · rw [hpar] at hpn
        cases hpn
      · rw [hpar] at hpn
        cases hpn
  · intro r hr pid hpid
    rcases List.mem_append.mp hr with hr | hr
    · obtain ⟨p, hp, hpe, hpv, rest⟩ := wf4 r hr pid hpid
      exact ⟨p, List.mem_append_left _ hp, hpe, hpv, rest⟩
    · rw [List.mem_singleton.mp hr] at hpid ⊢
      rcases hbranch with ⟨_, _, hrp⟩ | ⟨par, pv, _, _, hrp⟩ |
        ⟨par, prow, pm, hpar, hpvn, hfetch, hdecp, hszt, hgenlt, _, hrp⟩
      · rw [hrp] at hpid
        cases hpid
      · rw [hrp] at hpid
        cases hpid
      · rw [hrp] at hpid
        injection hpid with hpid
        refine ⟨prow, List.mem_append_left _ (List.mem_of_find?_eq_some hfetch),
          hpid, ?_, parsed, pm, hraw ▸ hdec, hdecp, hgenlt, hszt⟩
        have hpred := List.find?_some hfetch
        simp only [Bool.and_eq_true, beq_iff_eq] at hpred
        rw [hpred.2, hvol]

/-- Decoded `size` of a stored row (0 when the bytes do not decode; under
`DB.WellFormed` every stored row decodes). -/
def decodedSize (C : Crypto) (r : SnapRow) : Nat :=
  ((C.decode r.raw).map Manifest.size).getD 0

/-- Decoded `size_total` of a stored row. -/
def decodedSizeTotal (C : Crypto) (r : SnapRow) : Nat :=
  ((C.decode r.raw).map Manifest.size_total).getD 0

/-- A stored same-volume chain: rows of the table linked by local parent
edges (`next.parent = some previous.id`), starting at a root snapshot (a
row whose decoded manifest has no parent). -/
def DB.ChainFromRoot (C : Crypto) (st : DB) (rs : List SnapRow) : Prop :=
  (∀ r ∈ rs, r ∈ st.rows) ∧
  (∀ r0, rs.head? = some r0 → ∃ m, C.decode r0.raw = some m ∧ m.parent = none) ∧
  List.Chain' (fun a b => b.parent = some a.id) rs

/-- Along any parent-linked sequence of stored rows of a well-formed table,
generations strictly increase and the decoded `size_total` of the last row
is congruent modulo 2^64 (the u64 wrap of the source's sum) to the first
row's `size_total` plus the sum of the later rows' sizes. -/
theorem chain_partial (C : Crypto) (st : DB) (hwf : DB.WellFormed C st) :
    ∀ rs : List SnapRow, (∀ r ∈ rs, r ∈ st.rows) →
    List.Chain' (fun a b => b.parent = some a.id) rs →
    List.Chain' (fun a b => a.generation < b.generation) rs ∧
    (∀ r0 rl, rs.head? = some r0 → rs.getLast? = some rl →
      decodedSizeTotal C rl % U64_MODULUS
        = (decodedSizeTotal C r0 + ((rs.drop 1).map (decodedSize C)).sum)
          % U64_MODULUS)
  | [] => by simp
  | [a] => by
    intro hmem hch
    refine ⟨List.chain'_singleton a, ?_⟩
    intro r0 rl h0 hl
    simp only [List.head?_cons, Option.some_inj] at h0
    simp only [List.getLast?_singleton, Option.some_inj] at hl
    subst h0
    subst hl
    simp
  | a :: b :: t => by
    intro hmem hch
    obtain ⟨hwf1, hwf2, hwf3, hwf4⟩ := hwf
    have hab : b.parent = some a.id := (List.chain'_cons.mp hch).1
    have hbm : b ∈ st.rows := hmem b (by simp)
    have ham : a ∈ st.rows := hmem a (by simp)
    obtain ⟨p, hpmem, hpid, hpvol, m, pm, hdecb, hdecp, hgen, hsz⟩ :=
      hwf4 b hbm a.id hab
    have hpa : p = a := hwf2 p hpmem a ham hpid
    have hdecpa : C.decode a.raw = some pm := hpa ▸ hdecp
    obtain ⟨ma, hdeca, hgena, _⟩ := hwf3 a ham
    obtain ⟨mb2, hdecb2, hgenb, _⟩ := hwf3 b hbm
    have hmapm : ma = pm := by
      rw [hdeca] at hdecpa
      exact Option.some_inj.mp hdecpa
    have hmbm : mb2 = m := by
      rw [hdecb2] at hdecb
      exact Option.some_inj.mp hdecb
    have hltgen : a.generation < b.generation := by
      rw [hgena, hgenb, hmapm, hmbm]
      exact hgen
    have hmemtail : ∀ r ∈ b :: t, r ∈ st.rows := fun r hr => hmem r (by simp [hr])
    obtain ⟨ihchain, ihsum⟩ := chain_partial C st ⟨hwf1, hwf2, hwf3, hwf4⟩ (b :: t)
      hmemtail (List.chain'_cons.mp hch).2
    refine ⟨List.chain'_cons.mpr ⟨hltgen, ihchain⟩, ?_⟩
    intro r0 rl h0 hl
    simp only [List.head?_cons, Option.some_inj] at h0
    subst h0
    rw [List.getLast?_cons_cons] at hl
    have hsum := ihsum b rl rfl hl
    have hda : decodedSizeTotal C a = pm.size_total := by
      simp [decodedSizeTotal, hdeca, hmapm]
    have hdb : decodedSizeTotal C b = (pm.size_total + m.size) % U64_MODULUS := by
      simp [decodedSizeTotal, hdecb, hsz]
    have hdbs : decodedSize C b = m.size := by
      simp [decodedSize, hdecb]
    rw [hsum, hdb, Nat.mod_add_mod]
    simp only [List.drop_succ_cons, List.drop_zero, List.map_cons, List.sum_cons,
      hdbs, hda]
    congr 1
    omega

/-- C2 (amended): for a root manifest, admission succeeds only with
`size_total = size` and fails `WrongSizeTotal` otherwise; for a same-volume
parent, a missing parent row fails `MissingParent`, a generation not
strictly above the parent's fails `InvalidGeneration`, a `size_total`
different from the u64-wrapped sum `(parent.size_total + size) % 2^64`
fails `WrongSizeTotal`; admission preserves the table invariants, and in a
well-formed table every stored chain from a root has strictly increasing
generations and a `size_total` congruent modulo 2^64 to the running sum of
sizes from the root (equal whenever the sum stays below 2^64, as every
quantity is a u64 in the program). -/
theorem C2_admission_chain_invariants (C : Crypto) :
    (∀ (st : DB) (v : VolumeRow) (env mb sig : List Byte) (m : Manifest),
      Manifest.split env = some (mb, sig) →
      C.verify v.pubkey mb sig = true →
      C.decode mb = some m →
      m.parent = none →
      m.size_total ≠ m.size →
      Snapshot.create_from_manifest C st v env
        = .err (.wrongSizeTotal m.size_total m.size)) ∧
    (∀ (st : DB) (v : VolumeRow) (env mb sig : List Byte) (m : Manifest)
      (par : Parent),
      Manifest.split env = some (mb, sig) →
      C.verify v.pubkey mb sig = true →
      C.decode mb = some m →
      m.parent = some par →
      par.volume = none →
      Snapshot.fetch_by_hash st v.id par.hash = none →
      Snapshot.create_from_manifest C st v env
        = .err (.missingParent par.hash)) ∧
    (∀ (st : DB) (v : VolumeRow) (env mb sig : List Byte) (m : Manifest)
      (par : Parent) (prow : SnapRow) (pm : Manifest),
      Manifest.split env = some (mb, sig) →
      C.verify v.pubkey mb sig = true →
      C.decode mb = some m →
      m.parent = some par →
      par.volume = none →
      Snapshot.fetch_by_hash st v.id par.hash = some prow →
      C.decode prow.raw = some pm →
      m.size_total = (pm.size_total + m.size) % U64_MODULUS →
      m.generation ≤ pm.generation →
      Snapshot.create_from_manifest C st v env
        = .err (.invalidGeneration m.generation pm.generation)) ∧
    (∀ (st : DB) (v : VolumeRow) (env mb sig : List Byte) (m : Manifest)
      (par : Parent) (prow : SnapRow) (pm : Manifest),
      Manifest.split env = some (mb, sig) →
      C.verify v.pubkey mb sig = true →
      C.decode mb = some m →
      m.parent = some par →
      par.volume = none →
      Snapshot.fetch_by_hash st v.id par.hash = some prow →
      C.decode prow.raw = some pm →
      m.size_total ≠ (pm.size_total + m.size) % U64_MODULUS →
      Snapshot.create_from_manifest C st v env
        = .err (.wrongSizeTotal m.size_total
            ((pm.size_total + m.size) % U64_MODULUS))) ∧
    (∀ (st : DB) (v : VolumeRow) (env : List Byte) (st' : DB) (row : SnapRow),
      DB.WellFormed C st →
      Snapshot.create_from_manifest C st v env = .ok st' row →
      DB.WellFormed C st') ∧
    (∀ (st : DB) (rs : List SnapRow),
      DB.WellFormed C st →
      DB.ChainFromRoot C st rs →
      List.Chain' (fun a b => a.generation < b.generation) rs ∧
      (∀ rl, rs.getLast? = some rl →
        decodedSizeTotal C rl % U64_MODULUS
          = (rs.map (decodedSize C)).sum % U64_MODULUS)) := by
  refine ⟨?_, ?_, ?_, ?_, ?_, ?_⟩
  · intro st v env mb sig m hsplit hver hdec hpar hne
    unfold Snapshot.create_from_manifest
    rw [hsplit]
    simp [hver, hdec, hpar, Ne.symm hne]
  · intro st v env mb sig m par hsplit hver hdec hpar hpv hfetch
    unfold Snapshot.create_from_manifest
    rw [hsplit]
    simp [hver, hdec, hpar, hpv, hfetch]
  · intro st v env mb sig m par prow pm hsplit hver hdec hpar hpv hfetch hdecp hst hgen
    unfold Snapshot.create_from_manifest
    rw [hsplit]
    simp [hver, hdec, hpar, hpv, hfetch, hdecp, hst, hgen]
  · intro st v env mb sig m par prow pm hsplit hver hdec hpar hpv hfetch hdecp hne
    unfold Snapshot.create_from_manifest
    rw [hsplit]
    simp [hver, hdec, hpar, hpv, hfetch, hdecp, hne]
  · intro st v env st' row hwf h
    exact WellFormed_create_from_manifest C st v env st' row hwf h
  · intro st rs hwf hchain
    obtain ⟨hmem, hroot, hch⟩ := hchain
    obtain ⟨hchain', hsum⟩ := chain_partial C st hwf rs hmem hch
    refine ⟨hchain', ?_⟩
    intro rl hl
    rcases rs with _ | ⟨r0, rest⟩
    · cases hl
    · obtain ⟨m0, hdec0, hpar0⟩ := hroot r0 rfl
      have hroot_sz : m0.size_total = m0.size :=
        (hwf.2.2.1 r0 (hmem r0 (by simp))).elim
          (fun m hm => by
            have hmeq : m = m0 := by
              rw [hdec0] at hm
              exact (Option.some_inj.mp hm.1).symm
            exact (hmeq ▸ hm.2.2) (hmeq ▸ hpar0))
      have h0 := hsum r0 rl rfl hl
      have hd0 : decodedSizeTotal C r0 = m0.size_total := by
        simp [decodedSizeTotal, hdec0]
      have hd0s : decodedSize C r0 = m0.size := by
        simp [decodedSize, hdec0]
      rw [h0, hd0, hroot_sz]
      simp only [List.drop_succ_cons, List.drop_zero, List.map_cons, List.sum_cons, hd0s]

/-- A root manifest whose `size_total` sits 64 bytes below the u64 wrap
(admissible: roots only require `size_total = size`). -/
def mHuge : Manifest :=
  ⟨0, 0, [], U64_MODULUS - 64, U64_MODULUS - 64, 0, none, []⟩

/-- The envelope carrying `mHuge`. -/
def envHuge : List Byte := Manifest.encodeModel mHuge ++ List.replicate 64 1

/-- The row stored for `mHuge` (hash of `cryptoYes` is the byte sum). -/
def rowHuge : SnapRow :=
  ⟨0, 1, Manifest.encodeModel mHuge, List.replicate 64 1,
   (Manifest.encodeModel mHuge).sum, none, 0⟩

/-- The table after admitting `mHuge`. -/
def stHuge : DB := ⟨[rowHuge], 1⟩

/-- A child of `mHuge` in the same volume whose claimed `size_total` is the
u64-wrapped sum `(2^64 - 64) + 64 ≡ 0 (mod 2^64)`, not the unbounded sum
`2^64`. -/
def mWrap : Manifest :=
  ⟨0, 0, [], 64, 0, 1, some ⟨(Manifest.encodeModel mHuge).sum, none⟩, []⟩

/-- The envelope carrying `mWrap`. -/
def envWrap : List Byte := Manifest.encodeModel mWrap ++ List.replicate 64 2

/-- The row stored for `mWrap`. -/
def rowWrap : SnapRow :=
  ⟨1, 1, Manifest.encodeModel mWrap, List.replicate 64 2,
   (Manifest.encodeModel mWrap).sum, some 0, 1⟩

/-- Counterexample to C2 as stated: after admitting the near-wrap root
`mHuge`, the child `mWrap` — whose `size_total` (0) differs from the
unbounded sum `parent.size_total + size = 2^64` but equals its u64 wrap —
is admitted by `create_from_manifest` (the source computes the expected
total in u64 arithmetic, which wraps in release builds), where the claim
asserts the upload fails `WrongSizeTotal`; the stored chain's `size_total`
is then not the unbounded running sum of sizes. -/
theorem C2_admission_wrap_counterexample :
    Snapshot.create_from_manifest cryptoYes ⟨[], 0⟩ ⟨1, 5, 10, none, false⟩ envHuge
      = .ok stHuge rowHuge ∧
    Manifest.decodeModel (Manifest.encodeModel mWrap) = some mWrap ∧
    mWrap.parent = some ⟨rowHuge.hash, none⟩ ∧
    mWrap.size_total ≠ mHuge.size_total + mWrap.size ∧
    Snapshot.create_from_manifest cryptoYes stHuge ⟨1, 5, 10, none, false⟩ envWrap
      = .ok ⟨[rowHuge, rowWrap], 2⟩ rowWrap ∧
    Snapshot.create_from_manifest cryptoYes stHuge ⟨1, 5, 10, none, false⟩ envWrap
      ≠ .err (.wrongSizeTotal mWrap.size_total (mHuge.size_total + mWrap.size)) := by
  decide

/-- Witness for C2: a root manifest with `size_total = 65 ≠ 64 = size` is
rejected with `WrongSizeTotal`. -/
theorem C2_admission_chain_invariants_witness :
    Snapshot.create_from_manifest cryptoYes ⟨[], 0⟩ ⟨1, 5, 10, none, false⟩
      (Manifest.encodeModel ⟨0, 0, [], 64, 65, 0, none, []⟩ ++ List.replicate 64 7)
      = .err (.wrongSizeTotal 65 64) :=
  (C2_admission_chain_invariants cryptoYes).1 ⟨[], 0⟩ ⟨1, 5, 10, none, false⟩
    (Manifest.encodeModel ⟨0, 0, [], 64, 65, 0, none, []⟩ ++ List.replicate 64 7)
    (Manifest.encodeModel ⟨0, 0, [], 64, 65, 0, none, []⟩) (List.replicate 64 7)
    ⟨0, 0, [], 64, 65, 0, none, []⟩
    (by decide) (by decide) (by decide) (by decide) (by decide)

/-! ### C5 — decryption after encryption is the identity -/

/-- `xorAt` preserves length. -/
theorem xorAt_length (ks : Nat → Byte) : ∀ (pos : Nat) (bs : List Byte),
    (xorAt ks pos bs).length = bs.length
  | _, [] => rfl
  | pos, _ :: rest => by
    simp [xorAt, xorAt_length ks (pos + 1) rest]

/-- `xorAt` distributes over append, the position advancing. -/
theorem xorAt_append (ks : Nat → Byte) : ∀ (pos : Nat) (a b : List Byte),
    xorAt ks pos (a ++ b) = xorAt ks pos a ++ xorAt ks (pos + a.length) b
  | _, [], b => by simp [xorAt]
  | pos, x :: a, b => by
    show (x ^^^ ks pos) :: xorAt ks (pos + 1) (a ++ b)
        = (x ^^^ ks pos) :: xorAt ks (pos + 1) a ++ xorAt ks (pos + (x :: a).length) b
    rw [xorAt_append ks (pos + 1) a b]
    simp only [List.cons_append, List.length_cons]
    have h : pos + 1 + a.length = pos + (a.length + 1) := by omega
    rw [h]

/-- XORing twice with the same keystream at the same position is the
identity (XOR involution, byte by byte). -/
theorem xorAt_involution (ks : Nat → Byte) : ∀ (pos : Nat) (bs : List Byte),
    xorAt ks pos (xorAt ks pos bs) = bs
  | _, [] => rfl
  | pos, b :: rest => by
    simp [xorAt, xorAt_involution ks (pos + 1) rest, Nat.xor_cancel_right]

/-- The bytes of the steady cipher state are the flat keystream-XOR of the
upstream bytes from the current position. -/
theorem joinChunks_applyKeystreamChunks (ks : Nat → Byte) :
    ∀ (pos : Nat) (cs : List (List Byte)),
    joinChunks (applyKeystreamChunks ks pos cs) = xorAt ks pos (joinChunks cs)
  | _, [] => rfl
  | pos, c :: rest => by
    show xorAt ks pos c ++ joinChunks (applyKeystreamChunks ks (pos + c.length) rest)
        = xorAt ks pos (c ++ joinChunks rest)
    rw [joinChunks_applyKeystreamChunks ks (pos + c.length) rest, xorAt_append]

/-- The bytes produced by `EncryptionStream` are the nonce followed by the
keystream-XOR of the plaintext bytes. -/
theorem joinChunks_encrypt (ks : Nat → Byte) (nonce : List Byte)
    (cs : List (List Byte)) :
    joinChunks (EncryptionStream.run ks nonce cs)
      = nonce ++ xorAt ks 0 (joinChunks cs) := by
  cases cs with
  | nil =>
    show nonce ++ [].flatten = nonce ++ xorAt ks 0 [].flatten
    rfl
  | cons c rest =>
    show (nonce ++ xorAt ks 0 c) ++ joinChunks (applyKeystreamChunks ks c.length rest)
        = nonce ++ xorAt ks 0 (c ++ joinChunks rest)
    rw [joinChunks_applyKeystreamChunks, xorAt_append, Nat.zero_add,
      List.append_assoc]

/-- The bytes produced by `DecryptionStream` from a partially assembled
nonce buffer: the first `24 - buf.length` upstream bytes complete the
nonce, the rest are XORed with that nonce's keystream from position 0. -/
theorem joinChunks_decryptStart (ksOf : List Byte → Nat → Byte) :
    ∀ (cs : List (List Byte)) (buf : List Byte), buf.length < 24 →
    joinChunks (DecryptionStream.runStart ksOf buf cs)
      = xorAt (ksOf (buf ++ (joinChunks cs).take (24 - buf.length))) 0
          ((joinChunks cs).drop (24 - buf.length))
  | [], buf => by
    intro hb
    show ([] : List Byte) = xorAt (ksOf (buf ++ List.take (24 - buf.length) []))
      0 (List.drop (24 - buf.length) [])
    simp [xorAt]
  | c :: rest, buf => by
    intro hb
    simp only [DecryptionStream.runStart]
    by_cases h : (buf ++ c.take (24 - buf.length)).length = 24
    · rw [if_pos h]
      have hlen : 24 - buf.length ≤ c.length := by
        simp only [List.length_append, List.length_take] at h
        omega
      show xorAt (ksOf (buf ++ c.take (24 - buf.length))) 0 (c.drop (24 - buf.length))
            ++ joinChunks (applyKeystreamChunks (ksOf (buf ++ c.take (24 - buf.length)))
                 (c.drop (24 - buf.length)).length rest)
          = xorAt (ksOf (buf ++ (c ++ joinChunks rest).take (24 - buf.length))) 0
              ((c ++ joinChunks rest).drop (24 - buf.length))
      rw [joinChunks_applyKeystreamChunks,
        List.take_append_of_le_length hlen, List.drop_append_of_le_length hlen,
        xorAt_append, Nat.zero_add]
    · rw [if_neg h]
      have hclen : c.length < 24 - buf.length := by
        simp only [List.length_append, List.length_take] at h
        omega
      have htake : c.take (24 - buf.length) = c :=
        List.take_of_length_le (Nat.le_of_lt hclen)
      have hlt : (buf ++ c).length < 24 := by
        simp only [List.length_append]
        omega
      show [] ++ joinChunks (DecryptionStream.runStart ksOf (buf ++ c.take (24 - buf.length)) rest)
          = xorAt (ksOf (buf ++ (c ++ joinChunks rest).take (24 - buf.length))) 0
              ((c ++ joinChunks rest).drop (24 - buf.length))
      rw [htake, List.nil_append,
        joinChunks_decryptStart ksOf rest (buf ++ c) hlt]
      have h1 : (c ++ joinChunks rest).take (24 - buf.length)
          = c ++ (joinChunks rest).take (24 - (buf ++ c).length) := by
        rw [List.take_append_eq_append_take, htake]
        congr 2
        simp only [List.length_append]
        omega
      have h2 : (c ++ joinChunks rest).drop (24 - buf.length)
          = (joinChunks rest).drop (24 - (buf ++ c).length) := by
        rw [List.drop_append_eq_append_drop,
          List.drop_of_length_le (Nat.le_of_lt hclen), List.nil_append]
        congr 1
        simp only [List.length_append]
        omega
      rw [h1, h2, List.append_assoc]

/-- C5: for every byte sequence `s`, every keystream (determined by the
secret and the nonce), every partition of `s` into chunks, and every
re-chunking of the produced ciphertext (covering a nonce fragmented across
chunks), piping through `EncryptionStream` and then `DecryptionStream`
yields chunks whose concatenation is `s`. -/
theorem C5_decrypt_encrypt_identity (ksOf : List Byte → Nat → Byte)
    (nonce : List Byte) (s : List Byte) (plain cipher : List (List Byte))
    (hn : nonce.length = 24)
    (hp : joinChunks plain = s)
    (hc : joinChunks cipher
      = joinChunks (EncryptionStream.run (ksOf nonce) nonce plain)) :
    joinChunks (DecryptionStream.run ksOf cipher) = s := by
  have h1 : joinChunks cipher = nonce ++ xorAt (ksOf nonce) 0 s := by
    rw [hc, joinChunks_encrypt, hp]
  unfold DecryptionStream.run
  rw [joinChunks_decryptStart ksOf cipher [] (by simp)]
  simp only [List.nil_append, List.length_nil, Nat.sub_zero]
  rw [h1, List.take_left' hn, List.drop_left' hn, xorAt_involution]

/-- Witness for C5 on a concrete keystream, plaintext chunking and
ciphertext re-chunking that fragments the nonce. -/
theorem C5_decrypt_encrypt_identity_witness :
    joinChunks (DecryptionStream.run
      (fun nonce pos => (nonce.sum + pos) % 256)
      [[9], [9, 9], (List.replicate 21 9) ++
        [10 ^^^ (((List.replicate 24 9).sum + 0) % 256),
         20 ^^^ (((List.replicate 24 9).sum + 1) % 256),
         30 ^^^ (((List.replicate 24 9).sum + 2) % 256)]]) = [10, 20, 30] :=
  C5_decrypt_encrypt_identity (fun nonce pos => (nonce.sum + pos) % 256)
    (List.replicate 24 9) [10, 20, 30] [[10, 20], [30]]
    [[9], [9, 9], (List.replicate 21 9) ++
      [10 ^^^ (((List.replicate 24 9).sum + 0) % 256),
       20 ^^^ (((List.replicate 24 9).sum + 1) % 256),
       30 ^^^ (((List.replicate 24 9).sum + 2) % 256)]]
    (by decide) (by decide) (by decide)

/-! ### C6 — sign-then-verify round trip and the verification verdict -/

/-- Sliding the trailing-64-byte window across an append: emitting the
overflow of `u ++ w` and then processing `J` from the kept window `w` emits
the same bytes and keeps the same window as processing `(u ++ w) ++ J`
flat, provided `u` is exactly the overflow (`|u| = |u ++ w| - 64`). -/
theorem take_sub64_append (u w J : List Byte)
    (hu : u.length = (u ++ w).length - 64) :
    ((u ++ w) ++ J).take (((u ++ w) ++ J).length - 64)
        = u ++ ((w ++ J).take ((w ++ J).length - 64)) ∧
    ((u ++ w) ++ J).drop (((u ++ w) ++ J).length - 64)
        = (w ++ J).drop ((w ++ J).length - 64) := by
  have hlen : ((u ++ w) ++ J).length - 64 = u.length + ((w ++ J).length - 64) := by
    simp only [List.length_append] at hu ⊢
    omega
  rw [hlen, List.append_assoc, List.take_append, List.drop_append]
  exact ⟨rfl, rfl⟩

/-- One `VerifyStream` step from a buffer of at most 64 bytes: the emitted
bytes are the overflow beyond the trailing 64 of `buffer ++ chunk`, the new
buffer is that trailing window, the hashed bytes grow by the emitted bytes,
and the new buffer again holds at most 64 bytes. -/
theorem verify_step_spec (b hsh c : List Byte) (hb : b.length ≤ 64) :
    joinChunks (VerifyStream.step ⟨b, hsh⟩ c).1
        = (b ++ c).take ((b ++ c).length - 64) ∧
    (VerifyStream.step ⟨b, hsh⟩ c).2.buffer
        = (b ++ c).drop ((b ++ c).length - 64) ∧
    (VerifyStream.step ⟨b, hsh⟩ c).2.hashed
        = hsh ++ (b ++ c).take ((b ++ c).length - 64) ∧
    (VerifyStream.step ⟨b, hsh⟩ c).2.buffer.length ≤ 64 := by
  by_cases h1 : b.length + c.length ≤ 64
  · have hz : (b ++ c).length - 64 = 0 := by
      simp only [List.length_append]
      omega
    simp [VerifyStream.step, h1, hz, joinChunks]
  · by_cases h2 : b.length ≤ b.length + c.length - 64
    · have hc64 : 64 ≤ c.length := by omega
      have hsplit : b.length + c.length - 64 = b.length + (c.length - 64) := by
        omega
      have htake : (b ++ c).take (b.length + c.length - 64)
          = b ++ c.take (c.length - 64) := by
        rw [hsplit, List.take_append]
      have hdrop : (b ++ c).drop (b.length + c.length - 64)
          = c.drop (c.length - 64) := by
        rw [hsplit, List.drop_append]
      by_cases hpfx : (c.take (c.length - 64)).isEmpty
      · have hpe : c.take (c.length - 64) = [] := List.isEmpty_iff.mp hpfx
        simp [VerifyStream.step, h1, h2, hpfx, joinChunks, htake, hdrop, hpe,
          List.length_drop, List.length_append]
        omega
      · simp [VerifyStream.step, h1, h2, hpfx, joinChunks, htake, hdrop,
          List.length_drop, List.length_append]
        omega
    · have hdone : b.length + c.length - 64 ≤ b.length := by omega
      have htake : (b ++ c).take (b.length + c.length - 64)
          = b.take (b.length + c.length - 64) :=
        List.take_append_of_le_length hdone
      have hdrop : (b ++ c).drop (b.length + c.length - 64)
          = b.drop (b.length + c.length - 64) ++ c :=
        List.drop_append_of_le_length hdone
      simp [VerifyStream.step, h1, h2, joinChunks, htake, hdrop, List.length_drop,
        List.length_append]
      omega

/-- Running `VerifyStream` over all chunks from its initial state: the
emitted bytes are everything except the trailing 64 bytes, the final buffer
is that trailing window, and the hashed bytes equal the emitted bytes
(generalised over the starting state for the induction). -/
theorem verify_runChunks_spec :
    ∀ (cs : List (List Byte)) (b hsh : List Byte), b.length ≤ 64 →
    joinChunks (VerifyStream.runChunks ⟨b, hsh⟩ cs).1
        = (b ++ joinChunks cs).take ((b ++ joinChunks cs).length - 64) ∧
    (VerifyStream.runChunks ⟨b, hsh⟩ cs).2.buffer
        = (b ++ joinChunks cs).drop ((b ++ joinChunks cs).length - 64) ∧
    (VerifyStream.runChunks ⟨b, hsh⟩ cs).2.hashed
        = hsh ++ (b ++ joinChunks cs).take ((b ++ joinChunks cs).length - 64) ∧
    (VerifyStream.runChunks ⟨b, hsh⟩ cs).2.buffer.length ≤ 64
  | [], b, hsh => by
    intro hb
    have hz : (b ++ joinChunks []).length - 64 = 0 := by
      simp only [joinChunks, List.flatten_nil, List.append_nil]
      omega
    simp [VerifyStream.runChunks, joinChunks, hz, hb]
  | c :: rest, b, hsh => by
    intro hb
    obtain ⟨hs1, hs2, hs3, hs4⟩ := verify_step_spec b hsh c hb
    obtain ⟨ih1, ih2, ih3, ih4⟩ := verify_runChunks_spec rest
      (VerifyStream.step ⟨b, hsh⟩ c).2.buffer (VerifyStream.step ⟨b, hsh⟩ c).2.hashed hs4
    have heta : (⟨(VerifyStream.step ⟨b, hsh⟩ c).2.buffer,
        (VerifyStream.step ⟨b, hsh⟩ c).2.hashed⟩ : VerifyState)
        = (VerifyStream.step ⟨b, hsh⟩ c).2 := rfl
    rw [heta] at ih1 ih2 ih3 ih4
    have huw : (b ++ c).take ((b ++ c).length - 64)
        ++ (b ++ c).drop ((b ++ c).length - 64) = b ++ c :=
      List.take_append_drop _ _
    have hu : ((b ++ c).take ((b ++ c).length - 64)).length
        = (((b ++ c).take ((b ++ c).length - 64))
            ++ ((b ++ c).drop ((b ++ c).length - 64))).length - 64 := by
      rw [huw]
      simp only [List.length_take]
      omega
    obtain ⟨hsl1, hsl2⟩ := take_sub64_append ((b ++ c).take ((b ++ c).length - 64))
      ((b ++ c).drop ((b ++ c).length - 64)) (joinChunks rest) hu
    rw [huw] at hsl1 hsl2
    have hjoin : b ++ joinChunks (c :: rest) = (b ++ c) ++ joinChunks rest := by
      simp [joinChunks]
    have hout : VerifyStream.runChunks ⟨b, hsh⟩ (c :: rest)
        = ((VerifyStream.step ⟨b, hsh⟩ c).1
            ++ (VerifyStream.runChunks (VerifyStream.step ⟨b, hsh⟩ c).2 rest).1,
           (VerifyStream.runChunks (VerifyStream.step ⟨b, hsh⟩ c).2 rest).2) := rfl
    refine ⟨?_, ?_, ?_, ?_⟩
    · rw [hout, hjoin]
      show joinChunks ((VerifyStream.step ⟨b, hsh⟩ c).1
          ++ (VerifyStream.runChunks (VerifyStream.step ⟨b, hsh⟩ c).2 rest).1) = _
      rw [show joinChunks ((VerifyStream.step ⟨b, hsh⟩ c).1
            ++ (VerifyStream.runChunks (VerifyStream.step ⟨b, hsh⟩ c).2 rest).1)
          = joinChunks (VerifyStream.step ⟨b, hsh⟩ c).1
            ++ joinChunks (VerifyStream.runChunks (VerifyStream.step ⟨b, hsh⟩ c).2 rest).1
          from by simp [joinChunks]]
      rw [hs1, ih1, hs2, hsl1]
    · rw [hout, hjoin]
      show (VerifyStream.runChunks (VerifyStream.step ⟨b, hsh⟩ c).2 rest).2.buffer = _
      rw [ih2, hs2, hsl2]
    · rw [hout, hjoin]
      show (VerifyStream.runChunks (VerifyStream.step ⟨b, hsh⟩ c).2 rest).2.hashed = _
      rw [ih3, hs3, hs2, hsl1, List.append_assoc]
    · rw [hout]
      exact ih4

/-- C6: piping a byte sequence through `SignStream` and then `VerifyStream`
under the matching public key emits exactly the original bytes and ends in
the valid decision; a stream whose total length is below 64 bytes ends in
the `Incorrect` error; and in general the terminal decision is exactly the
verdict of the Ed25519 primitive on the trailing 64 bytes against the
SHA-512 digest of the emitted prefix — so a non-matching public key or any
perturbation that the primitive rejects surfaces `Incorrect`. -/
theorem C6_sign_verify (sha512 : List Byte → Nat) (pubOf : Nat → Nat)
    (sign : Nat → Nat → List Byte) (verify : Nat → Nat → List Byte → Bool)
    (hlen : ∀ k d, (sign k d).length = 64)
    (hok : ∀ k d, verify (pubOf k) d (sign k d) = true) :
    (∀ (k : Nat) (cs : List (List Byte)),
      joinChunks (VerifyStream.run sha512 verify (pubOf k)
        (SignStream.run sha512 sign k cs)).1 = joinChunks cs ∧
      (VerifyStream.run sha512 verify (pubOf k)
        (SignStream.run sha512 sign k cs)).2 = true) ∧
    (∀ (p : Nat) (ds : List (List Byte)), (joinChunks ds).length < 64 →
      (VerifyStream.run sha512 verify p ds).2 = false) ∧
    (∀ (p : Nat) (ds : List (List Byte)), 64 ≤ (joinChunks ds).length →
      (VerifyStream.run sha512 verify p ds).2
        = verify p (sha512 ((joinChunks ds).take ((joinChunks ds).length - 64)))
            ((joinChunks ds).drop ((joinChunks ds).length - 64))) := by
  have hrun : ∀ (p : Nat) (ds : List (List Byte)),
      VerifyStream.run sha512 verify p ds
        = (if ((joinChunks ds).drop ((joinChunks ds).length - 64)).length < 64 then
            ((VerifyStream.runChunks ⟨[], []⟩ ds).1, false)
          else
            ((VerifyStream.runChunks ⟨[], []⟩ ds).1,
             verify p (sha512 ((joinChunks ds).take ((joinChunks ds).length - 64)))
               ((joinChunks ds).drop ((joinChunks ds).length - 64)))) := by
    intro p ds
    obtain ⟨h1, h2, h3, h4⟩ := verify_runChunks_spec ds [] [] (by simp)
    simp only [List.nil_append] at h1 h2 h3
    unfold VerifyStream.run
    simp only [h2, h3]
  have hemit : ∀ (p : Nat) (ds : List (List Byte)),
      joinChunks (VerifyStream.run sha512 verify p ds).1
        = (joinChunks ds).take ((joinChunks ds).length - 64) := by
    intro p ds
    obtain ⟨h1, _, _, _⟩ := verify_runChunks_spec ds [] [] (by simp)
    simp only [List.nil_append] at h1
    rw [hrun]
    by_cases hc : ((joinChunks ds).drop ((joinChunks ds).length - 64)).length < 64
    · rw [if_pos hc]
      exact h1
    · rw [if_neg hc]
      exact h1
  refine ⟨?_, ?_, ?_⟩
  · intro k cs
    have hsig : joinChunks (SignStream.run sha512 sign k cs)
        = joinChunks cs ++ sign k (sha512 (joinChunks cs)) := by
      simp [SignStream.run, joinChunks]
    have hjl : (joinChunks (SignStream.run sha512 sign k cs)).length
        = (joinChunks cs).length + 64 := by
      rw [hsig, List.length_append, hlen]
    have htk : (joinChunks (SignStream.run sha512 sign k cs)).take
          ((joinChunks (SignStream.run sha512 sign k cs)).length - 64)
        = joinChunks cs := by
      rw [hjl, hsig]
      rw [show (joinChunks cs).length + 64 - 64 = (joinChunks cs).length from by omega]
      exact List.take_left _ _
    have hdr : (joinChunks (SignStream.run sha512 sign k cs)).drop
          ((joinChunks (SignStream.run sha512 sign k cs)).length - 64)
        = sign k (sha512 (joinChunks cs)) := by
      rw [hjl, hsig]
      rw [show (joinChunks cs).length + 64 - 64 = (joinChunks cs).length from by omega]
      exact List.drop_left _ _
    constructor
    · rw [hemit, htk]
    · rw [hrun]
      rw [hdr, htk]
      have hnl : ¬ (sign k (sha512 (joinChunks cs))).length < 64 := by
        rw [hlen]
        omega
      rw [if_neg hnl]
      exact hok k (sha512 (joinChunks cs))
  · intro p ds hshort
    rw [hrun]
    have hz : (joinChunks ds).length - 64 = 0 := by omega
    rw [if_pos (by rw [hz]; simpa using hshort)]
  · intro p ds hlong
    rw [hrun]
    have hdl : ((joinChunks ds).drop ((joinChunks ds).length - 64)).length = 64 := by
      rw [List.length_drop]
      omega
    rw [if_neg (by rw [hdl]; omega)]

/-- Witness for C6 on a concrete model primitive (`pubOf k = k + 1`, the
signature a 64-byte vector determined by the public key and digest): the
round trip over `[1, 2], [3]` emits `[1, 2, 3]` with a valid decision, and
a 3-byte stream fails. -/
theorem C6_sign_verify_witness :
    (joinChunks (VerifyStream.run (fun bs => bs.sum)
        (fun p d s => s == List.replicate 63 0 ++ [(p + d) % 256]) 8
        (SignStream.run (fun bs => bs.sum)
          (fun k d => List.replicate 63 0 ++ [(k + 1 + d) % 256]) 7
          [[1, 2], [3]])).1 = [1, 2, 3]) ∧
    ((VerifyStream.run (fun bs => bs.sum)
        (fun p d s => s == List.replicate 63 0 ++ [(p + d) % 256]) 8
        (SignStream.run (fun bs => bs.sum)
          (fun k d => List.replicate 63 0 ++ [(k + 1 + d) % 256]) 7
          [[1, 2], [3]])).2 = true) ∧
    ((VerifyStream.run (fun bs => bs.sum)
        (fun p d s => s == List.replicate 63 0 ++ [(p + d) % 256]) 9
        [[1, 2], [3]]).2 = false) := by
  have h := C6_sign_verify (fun bs => bs.sum) (fun k => k + 1)
    (fun k d => List.replicate 63 0 ++ [(k + 1 + d) % 256])
    (fun p d s => s == List.replicate 63 0 ++ [(p + d) % 256])
    (by intro k d; simp)
    (by intro k d; simp)
  exact ⟨(h.1 7 [[1, 2], [3]]).1, (h.1 7 [[1, 2], [3]]).2,
    h.2.1 9 [[1, 2], [3]] (by decide)⟩

end Storage
